import Mathlib

/-!
Verification of the SCSS class-name extraction engine of
`design-system-assistant`.

The repository contains two implementations of the engine:

* `src/unnamed/part_000` — the variant with a symbol table and the
  mixin-convention dispatch (`processMixinCall`), embedded below in
  namespace `DSA.Part000`;
* `src/src/server.ts` — the variant that only admits a mixin call's first
  argument as a literal prefix, embedded in namespace `DSA.Server`.

Strings are modelled as Lean `String` (lists of characters); the three
JavaScript regular expressions used by the engine
(`/\$([a-zA-Z0-9_-]+):\s*\(([\s\S]*?)\)\s*!default;/g`,
`/@include\s+([a-zA-Z0-9_-]+)\((.*?)\);/g`, `/\.([a-zA-Z0-9_-]+)\s*{/g`)
are embedded as deterministic scanners: every quantifier in them is
either followed by a character disjoint from its class (so greedy
matching is maximal-munch without backtracking) or lazy (so matching
stops at the first position where the continuation succeeds), and the
global `exec` loop finds the leftmost match at or after the end of the
previous one.  The top-level scanners use a fuel argument equal to the
length of the remaining text plus one; every step consumes at least one
character, so the fuel never runs out.

JavaScript-specific semantics preserved: `String.prototype.split` on a
one-character separator keeps empty segments and returns at least one
segment; `trim` strips the `\s` character class; object property
assignment keeps the position of an existing key and appends a new one;
`Object.keys` lists canonical array-index keys first in ascending
numeric order, then the remaining keys in insertion order.  (Properties
inherited from `Object.prototype` are not modelled; no claim exercises
them.)
-/

namespace DSA

/-- The JavaScript `\s` character class (also the set stripped by
`String.prototype.trim`): whitespace and line terminators. -/
def isWsJS (c : Char) : Bool :=
  c = ' ' || c = '\t' || c = '\n' || c = '\r' ||
  c.val = 11 || c.val = 12 || c.val = 0xa0 || c.val = 0x1680 ||
  (0x2000 ≤ c.val && c.val ≤ 0x200a) || c.val = 0x2028 || c.val = 0x2029 ||
  c.val = 0x202f || c.val = 0x205f || c.val = 0x3000 || c.val = 0xfeff

/-- The character class `[a-zA-Z0-9_-]` used by all three regexes. -/
def isWordChar (c : Char) : Bool :=
  c.isAlpha || c.isDigit || c = '_' || c = '-'

/-- JavaScript `.` without the `s` flag: any character except a line
terminator (`\n`, `\r`, U+2028, U+2029). -/
def isDotChar (c : Char) : Bool :=
  !(c = '\n' || c = '\r' || c.val = 0x2028 || c.val = 0x2029)

/-- Prefix test: `startsWithList p l` holds when `p` is a prefix of `l`. -/
def startsWithList : List Char → List Char → Bool
  | [], _ => true
  | _ :: _, [] => false
  | p :: ps, c :: cs => p = c && startsWithList ps cs

/-- JavaScript `s.split(sep)` for a one-character separator: keeps empty
segments and always returns at least one segment. -/
def splitOnChar (sep : Char) : List Char → List (List Char)
  | [] => [[]]
  | c :: rest =>
    if c = sep then [] :: splitOnChar sep rest
    else
      match splitOnChar sep rest with
      | s :: ss => (c :: s) :: ss
      | [] => [[c]]

/-- JavaScript `String.prototype.trim`. -/
def trimJS (l : List Char) : List Char :=
  ((l.dropWhile isWsJS).reverse.dropWhile isWsJS).reverse

/-- Quote stripping, `replace` with the class of single and double
quotes and the `g` flag: drop every quote character. -/
def removeQuotes (l : List Char) : List Char :=
  l.filter (fun c => !(c = '\'' || c = '"'))

/-- Quote-and-dollar stripping used by `server.ts` when resolving a
`style-class` argument: drop every quote and every dollar sign. -/
def removeQuotesDollar (l : List Char) : List Char :=
  l.filter (fun c => !(c = '\'' || c = '"' || c = '$'))

/-- Pattern 1 of `invalidPatterns`: starts with a dollar sign. -/
def testStartsDollar (l : List Char) : Bool :=
  match l with
  | c :: _ => c = '$'
  | [] => false

/-- Pattern 2 of `invalidPatterns`: starts with a hash. -/
def testStartsHash (l : List Char) : Bool :=
  match l with
  | c :: _ => c = '#'
  | [] => false

/-- Pattern 3 of `invalidPatterns`: contains a dollar or percent sign. -/
def testDollarPercent (l : List Char) : Bool :=
  l.any (fun c => c = '$' || c = '%')

/-- Pattern 4 of `invalidPatterns`: starts with a decimal digit. -/
def testStartsDigit (l : List Char) : Bool :=
  match l with
  | c :: _ => c.isDigit
  | [] => false

/-- Pattern 5 of `invalidPatterns`: starts with a hyphen. -/
def testStartsHyphen (l : List Char) : Bool :=
  match l with
  | c :: _ => c = '-'
  | [] => false

/-- Pattern 6 of `invalidPatterns`: contains a whitespace character. -/
def testWs (l : List Char) : Bool :=
  l.any isWsJS

/-- Pattern 7 of `invalidPatterns`: contains a parenthesis. -/
def testParen (l : List Char) : Bool :=
  l.any (fun c => c = '(' || c = ')')

/-- Pattern 8 of `invalidPatterns`: ends with a semicolon. -/
def testEndsSemi (l : List Char) : Bool :=
  match l.getLast? with
  | some c => c = ';'
  | none => false

/-- Pattern 9 of `invalidPatterns`: entirely a numeric size literal,
digits followed by `px` or `rem`.  The digit run is greedy and the
following character is not a digit, so maximal munch is faithful to the
regex. -/
def testSizeLit (l : List Char) : Bool :=
  let ds := l.takeWhile Char.isDigit
  let r := l.dropWhile Char.isDigit
  !ds.isEmpty && (r = ['p', 'x'] || r = ['r', 'e', 'm'])

/-- Pattern 10 of `invalidPatterns`: entirely decimal digits (at least
one). -/
def testAllDigits (l : List Char) : Bool :=
  !l.isEmpty && l.all Char.isDigit

/-- Embeds `isValidClassName` (identical in `src/unnamed/part_000` lines
219-234 and `src/src/server.ts` lines 149-165): a candidate is valid iff
none of the ten `invalidPatterns` regexes matches it. -/
def isValidClassName (name : String) : Bool :=
  let l := name.data
  !(testStartsDollar l || testStartsHash l || testDollarPercent l ||
    testStartsDigit l || testStartsHyphen l || testWs l || testParen l ||
    testEndsSemi l || testSizeLit l || testAllDigits l)

/-- Insertion-order set of strings (`Set<string>` with `add`). -/
def addToSet (s : List String) (x : String) : List String :=
  if x ∈ s then s else s ++ [x]

/-- A parsed variable map: ordered `key → raw value` entries (the value
is `none` when the entry had no colon, i.e. JavaScript `undefined`). -/
abbrev VarMap := List (String × Option String)

/-- The symbol table `variables`: ordered `name → map` entries. -/
abbrev Variables := List (String × VarMap)

/-- JavaScript object property assignment `m[k] = v`: overwrite in place
if the key exists, else append. -/
def jsOSet {α : Type} (m : List (String × α)) (k : String) (v : α) :
    List (String × α) :=
  if m.any (fun p => p.1 = k) then
    m.map (fun p => if p.1 = k then (k, v) else p)
  else m ++ [(k, v)]

/-- JavaScript object property read `m[k]` (own properties only). -/
def lookupVar {α : Type} (m : List (String × α)) (k : String) : Option α :=
  (m.find? (fun p => p.1 = k)).map (fun p => p.2)

/-- Numeric value of a digit string. -/
def digitsToNat (l : List Char) : Nat :=
  l.foldl (fun n c => n * 10 + (c.toNat - 48)) 0

/-- A canonical array-index property key: a digit string with no leading
zero (except `"0"`) whose value is below 2^32 - 1. -/
def isArrayIndexKey (s : String) : Bool :=
  match s.data with
  | [] => false
  | c :: cs =>
    c.isDigit && cs.all Char.isDigit && (cs.isEmpty || !(c = '0')) &&
    digitsToNat (c :: cs) < 4294967295

/-- Insert into a list of array-index keys, ascending by numeric value. -/
def insertIdxKey (x : String) : List String → List String
  | [] => [x]
  | y :: ys =>
    if digitsToNat x.data ≤ digitsToNat y.data then x :: y :: ys
    else y :: insertIdxKey x ys

/-- Embeds `Object.keys`: canonical array-index keys first in ascending
numeric order, then the remaining string keys in insertion order. -/
def objKeys (m : VarMap) : List String :=
  let ks := m.map (fun p => p.1)
  (ks.filter isArrayIndexKey).foldr insertIdxKey [] ++
    ks.filter (fun k => !isArrayIndexKey k)

/-- Lazy body of the variable-declaration regex: consume `[\s\S]*?` until
the continuation `\)\s*!default;` matches, returning the captured body
and the text after the whole match.  (`\s*` is greedy but followed by
`!`, which is not whitespace, so dropping all whitespace is faithful.) -/
def scanVarBody : List Char → Option (List Char × List Char)
  | [] => none
  | c :: rest =>
    if c = ')' then
      let tail := rest.dropWhile isWsJS
      if startsWithList "!default;".data tail then
        some ([], tail.drop 9)
      else
        match scanVarBody rest with
        | some (b, r) => some (c :: b, r)
        | none => none
    else
      match scanVarBody rest with
      | some (b, r) => some (c :: b, r)
      | none => none

/-- Anchored match of `/\$([a-zA-Z0-9_-]+):\s*\(([\s\S]*?)\)\s*!default;/`
at the head of the text: returns the variable name, the body capture and
the text after the match. -/
def matchVarAt : List Char → Option (String × String × List Char)
  | '$' :: rest =>
    let nm := rest.takeWhile isWordChar
    let r1 := rest.dropWhile isWordChar
    if nm.isEmpty then none
    else
      match r1 with
      | ':' :: r2 =>
        match r2.dropWhile isWsJS with
        | '(' :: r3 =>
          match scanVarBody r3 with
          | some (body, r4) => some (String.mk nm, String.mk body, r4)
          | none => none
        | _ => none
      | _ => none
  | _ => none

/-- One `exec` loop of the variable-declaration regex: find the leftmost
match at or after the current position, emit its captures, and resume at
the end of the match.  Fuel bounds the recursion; each step consumes at
least one character, so `length + 1` fuel always suffices. -/
def scanVariablesGo : Nat → List Char → List (String × String)
  | 0, _ => []
  | _, [] => []
  | fuel + 1, c :: rest =>
    match matchVarAt (c :: rest) with
    | some (n, b, r) => (n, b) :: scanVariablesGo fuel r
    | none => scanVariablesGo fuel rest

/-- All matches of the variable-declaration regex, in text order:
`(name, body)` pairs. -/
def scanVariables (content : String) : List (String × String) :=
  scanVariablesGo (content.data.length + 1) content.data

/-- Lazy argument capture of the mixin regex: consume `.*?` (no line
terminators) until the continuation `\);` — the current character `)`
immediately followed by `;` — matches. -/
def scanMixinArgs : List Char → Option (List Char × List Char)
  | [] => none
  | c :: rest =>
    if c = ')' && rest.head? = some ';' then some ([], rest.tail)
    else if isDotChar c then
      match scanMixinArgs rest with
      | some (a, r) => some (c :: a, r)
      | none => none
    else none

/-- Anchored match of `/@include\s+([a-zA-Z0-9_-]+)\((.*?)\);/` at the
head of the text. -/
def matchMixinAt (l : List Char) : Option (String × String × List Char) :=
  if startsWithList "@include".data l then
    let r0 := l.drop 8
    let ws := r0.takeWhile isWsJS
    let r1 := r0.dropWhile isWsJS
    if ws.isEmpty then none
    else
      let nm := r1.takeWhile isWordChar
      let r2 := r1.dropWhile isWordChar
      if nm.isEmpty then none
      else
        match r2 with
        | '(' :: r3 =>
          match scanMixinArgs r3 with
          | some (args, r4) => some (String.mk nm, String.mk args, r4)
          | none => none
        | _ => none
  else none

/-- All matches of the mixin-invocation regex, in text order:
`(mixinName, mixinArgs)` pairs. -/
def scanMixinsGo : Nat → List Char → List (String × String)
  | 0, _ => []
  | _, [] => []
  | fuel + 1, c :: rest =>
    match matchMixinAt (c :: rest) with
    | some (n, a, r) => (n, a) :: scanMixinsGo fuel r
    | none => scanMixinsGo fuel rest

/-- All `@include name(args);` matches of a source text. -/
def scanMixins (content : String) : List (String × String) :=
  scanMixinsGo (content.data.length + 1) content.data

/-- Anchored match of `/\.([a-zA-Z0-9_-]+)\s*{/` at the head of the
text. -/
def matchClassAt : List Char → Option (String × List Char)
  | '.' :: rest =>
    let nm := rest.takeWhile isWordChar
    let r1 := rest.dropWhile isWordChar
    if nm.isEmpty then none
    else
      match r1.dropWhile isWsJS with
      | '{' :: r2 => some (String.mk nm, r2)
      | _ => none
  | _ => none

/-- All matches of the literal class-selector regex, in text order. -/
def scanClassSelectorsGo : Nat → List Char → List String
  | 0, _ => []
  | _, [] => []
  | fuel + 1, c :: rest =>
    match matchClassAt (c :: rest) with
    | some (n, r) => n :: scanClassSelectorsGo fuel r
    | none => scanClassSelectorsGo fuel rest

/-- All `.name {` selector identifiers of a source text. -/
def scanClassSelectors (content : String) : List String :=
  scanClassSelectorsGo (content.data.length + 1) content.data

/-- The per-entry loop shared by both files' `addClassesFromVariable`:
split the map body on commas, trim each entry, take the text before the
first colon as the key, strip quotes and trim it, and add it to the set
if it is truthy (non-empty before cleaning) and passes the filter. -/
def addCleanKeys (content : String) (classNames : List String) :
    List String :=
  ((splitOnChar ',' content.data).map trimJS).foldl
    (fun cns entry =>
      match splitOnChar ':' entry with
      | key :: _ =>
        if !key.isEmpty then
          let cleanKey := String.mk (trimJS (removeQuotes key))
          if isValidClassName cleanKey then addToSet cns cleanKey else cns
        else cns
      | [] => cns)
    classNames

/-- The keys a map body yields before validation (same entry analysis as
`addCleanKeys`, without the validity filter); used to state theorems
about direct key emission. -/
def cleanKeysOf (content : String) : List String :=
  ((splitOnChar ',' content.data).map trimJS).filterMap
    (fun entry =>
      match splitOnChar ':' entry with
      | key :: _ =>
        if !key.isEmpty then some (String.mk (trimJS (removeQuotes key)))
        else none
      | [] => none)

namespace Part000

/-- Embeds `parseVariableContent` (`part_000` lines 144-152): split the
body on commas, trim; split each entry on colons, trim the parts; the
key is the first part with quotes stripped, the value the second part
(or `undefined`). -/
def parseVariableContent (content : String) : VarMap :=
  ((splitOnChar ',' content.data).map trimJS).foldl
    (fun result entry =>
      match (splitOnChar ':' entry).map trimJS with
      | key :: restParts =>
        jsOSet result (String.mk (removeQuotes key)) (restParts.head?.map String.mk)
      | [] => result)
    []

/-- Embeds `addClassesFromVariable` (`part_000` lines 154-165): emit
every valid cleaned key of a map body as a direct candidate. -/
def addClassesFromVariable (content : String) (classNames : List String) :
    List String :=
  addCleanKeys content classNames

/-- Argument parsing of `processMixinCall` (`part_000` line 168): split
on commas, trim each piece, strip its quotes. -/
def parseMixinArgs (mixinArgs : String) : List String :=
  (splitOnChar ',' mixinArgs.data).map
    (fun a => String.mk (removeQuotes (trimJS a)))

/-- Embeds `processMixinCall` (`part_000` lines 167-217): dispatch on the mixin
name; `ds4-scale-class` takes a prefix and two map names and emits the
cross product `{name}{key}-{scaleKey}`; the two-argument and
one-argument conventions emit the resolved map's keys directly; every
candidate is filtered; an unknown name or an unresolved map emits
nothing. -/
def processMixinCall (mixinName : String) (mixinArgs : String)
    (vars : Variables) (classNames : List String) : List String :=
  let args := parseMixinArgs mixinArgs
  if mixinName = "ds4-scale-class" then
    if args.length ≥ 3 then
      let name := args.getD 0 ""
      let mapName := args.getD 1 ""
      let scalesName := args.getD 2 ""
      match lookupVar vars mapName, lookupVar vars scalesName with
      | some map, some scales =>
        (objKeys map).foldl
          (fun cns key =>
            (objKeys scales).foldl
              (fun cns2 scaleKey =>
                let className := name ++ key ++ "-" ++ scaleKey
                if isValidClassName className then addToSet cns2 className
                else cns2)
              cns)
          classNames
      | _, _ => classNames
    else classNames
  else if mixinName = "ds4-scale-font-class" || mixinName = "style-class" then
    if args.length ≥ 2 then
      match lookupVar vars (args.getD 1 "") with
      | some map =>
        (objKeys map).foldl
          (fun cns key =>
            if isValidClassName key then addToSet cns key else cns)
          classNames
      | none => classNames
    else classNames
  else if mixinName = "ds4-scale-border-radius-class" ||
      mixinName = "ds4-border-radius-class" then
    if args.length ≥ 1 then
      match lookupVar vars (args.getD 0 "") with
      | some map =>
        (objKeys map).foldl
          (fun cns key =>
            if isValidClassName key then addToSet cns key else cns)
          classNames
      | none => classNames
    else classNames
  else classNames

/-- The mutable state of `parseScssFiles` (`part_000` lines 107–109):
the class-name set and the symbol table `vars` (the source's
`variables`, a keyword in Lean).  The table is declared before
the file loop, so it persists across files within one call. -/
structure ScanState where
  classNames : List String
  vars : Variables

/-- The body of the file loop of `parseScssFiles` (`part_000` lines
111–139): the variable-declaration pass (building the table and emitting
direct keys), then the mixin pass, then the literal-selector pass. -/
def processFile (st : ScanState) (content : String) : ScanState :=
  let st1 := (scanVariables content).foldl
    (fun s p =>
      { classNames := addClassesFromVariable p.2 s.classNames,
        vars := jsOSet s.vars p.1 (parseVariableContent p.2) })
    st
  let st2 := (scanMixins content).foldl
    (fun s p =>
      { s with classNames := processMixinCall p.1 p.2 s.vars s.classNames })
    st1
  (scanClassSelectors content).foldl
    (fun s nm =>
      { s with classNames :=
          if isValidClassName nm then addToSet s.classNames nm
          else s.classNames })
    st2

/-- Embeds `parseScssFiles` (`part_000` lines 107-142), taking each file's text
directly (file reading is the Host's concern): fold the per-file pass
over the corpus and return the accumulated set as an ordered list. -/
def parseScssFiles (files : List String) : List String :=
  (files.foldl processFile ⟨[], []⟩).classNames

end Part000

namespace Server

/-- Anchored match of the regex `server.ts` builds in
`addClassesFromVariable` (lines 167-169) from a variable name: a literal
dollar sign, the name, a colon, optional whitespace, and a parenthesized
body terminated by optional whitespace and the `!default;` marker;
returns the body capture.  (The name is interpolated into the regex
source; regex metacharacters inside it are not modelled, and no claim
supplies any.) -/
def matchNamedVarAt (nm : String) (l : List Char) : Option String :=
  if startsWithList ('$' :: (nm.data ++ [':'])) l then
    match (l.drop (nm.data.length + 2)).dropWhile isWsJS with
    | '(' :: r3 =>
      match scanVarBody r3 with
      | some (body, _) => some (String.mk body)
      | none => none
    | _ => none
  else none

/-- First match of the named-variable regex anywhere in the text (the
regex has no `g` flag, so `exec` returns the leftmost match). -/
def findNamedVarBody (nm : String) : List Char → Option String
  | [] => none
  | c :: rest =>
    match matchNamedVarAt nm (c :: rest) with
    | some b => some b
    | none => findNamedVarBody nm rest

/-- Embeds `addClassesFromVariable` (`server.ts` lines 167-183): find
the named map declaration in the content and emit its valid cleaned
keys; no match emits nothing. -/
def addClassesFromVariable (content : String) (variableName : String)
    (classNames : List String) : List String :=
  match findNamedVarBody variableName content.data with
  | some body => addCleanKeys body classNames
  | none => classNames

/-- Body of the file loop of `parseScssFiles` (`server.ts` lines
106-145): the variable-declaration pass emits each map's valid cleaned
keys (no symbol table is kept); the mixin pass, for names starting with
`ds4-scale-` or equal to `style-class`, admits the first argument as a
literal prefix, and for `style-class` with a second argument re-scans
the content for the named map and emits its keys.  There is no
literal-selector pass in this variant. -/
def processFile (classNames : List String) (content : String) :
    List String :=
  let cns1 := (scanVariables content).foldl
    (fun cns p => addCleanKeys p.2 cns) classNames
  (scanMixins content).foldl
    (fun cns p =>
      if startsWithList "ds4-scale-".data p.1.data || p.1 = "style-class" then
        let args := (splitOnChar ',' p.2.data).map trimJS
        let pfx := String.mk (trimJS (removeQuotes (args.headD [])))
        let cns2 := if isValidClassName pfx then addToSet cns pfx else cns
        if p.1 = "style-class" && args.length > 1 then
          addClassesFromVariable content
            (String.mk (trimJS (removeQuotesDollar (args.getD 1 []))))
            cns2
        else cns2
      else cns)
    cns1

/-- Embeds `parseScssFiles` (`server.ts` lines 103-148), taking each
file's text directly. -/
def parseScssFiles (files : List String) : List String :=
  files.foldl processFile []

end Server

/-- Formulation of the Validity Filter's rejection clauses as the spec
states them (section 4.1): a candidate is rejected iff it begins with a
dollar sign or a hash, contains a dollar or percent sign, begins with a
decimal digit, begins with a hyphen, contains whitespace, contains a
parenthesis, ends with a semicolon, is entirely a `px`/`rem` size
literal, or is entirely decimal digits. -/
def rejectedBySpec (name : String) : Prop :=
  name.data.head? = some '$' ∨
  name.data.head? = some '#' ∨
  (∃ c ∈ name.data, c = '$' ∨ c = '%') ∨
  (∃ c, name.data.head? = some c ∧ c.isDigit = true) ∨
  name.data.head? = some '-' ∨
  (∃ c ∈ name.data, isWsJS c = true) ∨
  (∃ c ∈ name.data, c = '(' ∨ c = ')') ∨
  name.data.getLast? = some ';' ∨
  (∃ ds, ds ≠ [] ∧ (∀ c ∈ ds, c.isDigit = true) ∧
    (name.data = ds ++ ['p', 'x'] ∨ name.data = ds ++ ['r', 'e', 'm'])) ∨
  (name.data ≠ [] ∧ ∀ c ∈ name.data, c.isDigit = true)

/-- Corpus exercising the `ds4-scale-class` cross product: two default
maps followed by an invocation, as in the spec's test (section 8). -/
def crossInput : String :=
  "$color: (red: #f00, blue: #00f) !default;\n$scale: (1: 1x, 2: 2x) !default;\n@include ds4-scale-class(\"btn-\", $color, $scale);"

/-- First unit of the cross-file corpus: declares maps `m` and `s`. -/
def fileA : String :=
  "$m: (abc: red) !default; $s: (xy: solid) !default;"

/-- Second unit of the cross-file corpus: invokes `ds4-scale-class`
against maps it does not declare. -/
def fileB : String :=
  "@include ds4-scale-class(btn-, m, s);"

/-! ## General fold lemmas -/

theorem foldl_preserve {α β : Type} {P : α → Prop} {f : α → β → α}
    (hstep : ∀ a b, P a → P (f a b)) :
    ∀ (l : List β) (a : α), P a → P (l.foldl f a) := by
  intro l
  induction l with
  | nil => intro a h; exact h
  | cons b t ih => intro a h; exact ih (f a b) (hstep a b h)

theorem foldl_attain {α β : Type} {P : α → Prop} {f : α → β → α}
    (hstep : ∀ a b, P a → P (f a b)) (b₀ : β) (hb : ∀ a, P (f a b₀)) :
    ∀ (l : List β) (a : α), b₀ ∈ l → P (l.foldl f a) := by
  intro l
  induction l with
  | nil => intro a h; cases h
  | cons c t ih =>
    intro a h
    rcases List.mem_cons.mp h with h1 | h1
    · subst h1
      exact foldl_preserve hstep t (f a b₀) (hb a)
    · exact ih (f a c) h1

/-! ## Set and key-emission lemmas -/

theorem mem_addToSet_of_mem {s : List String} {x y : String} (h : x ∈ s) :
    x ∈ addToSet s y := by
  unfold addToSet
  split
  · exact h
  · exact List.mem_append_left _ h

theorem mem_addToSet_self (s : List String) (x : String) :
    x ∈ addToSet s x := by
  unfold addToSet
  split
  · assumption
  · exact List.mem_append_right _ (List.mem_singleton.mpr rfl)

theorem addToSet_all {P : String → Prop} {s : List String} {x : String}
    (hs : ∀ y ∈ s, P y) (hx : P x) : ∀ y ∈ addToSet s x, P y := by
  unfold addToSet
  split
  · exact hs
  · intro y hy
    rcases List.mem_append.mp hy with h | h
    · exact hs y h
    · rcases List.mem_singleton.mp h with rfl
      exact hx

theorem addCleanKeys_all_valid {content : String} {cns : List String}
    (h : ∀ x ∈ cns, isValidClassName x = true) :
    ∀ x ∈ addCleanKeys content cns, isValidClassName x = true := by
  unfold addCleanKeys
  refine foldl_preserve (P := fun s => ∀ x ∈ s, isValidClassName x = true) ?_ _ cns h
  intro a entry ha
  cases hsplit : splitOnChar ':' entry with
  | nil => simpa [hsplit] using ha
  | cons key rest =>
    simp only [hsplit]
    split
    · split
      · exact addToSet_all ha (by assumption)
      · exact ha
    · exact ha

theorem mem_addCleanKeys_of_mem {content : String} {cns : List String}
    {x : String} (h : x ∈ cns) : x ∈ addCleanKeys content cns := by
  unfold addCleanKeys
  refine foldl_preserve (P := fun s => x ∈ s) ?_ _ cns h
  intro a entry ha
  cases hsplit : splitOnChar ':' entry with
  | nil => simpa [hsplit] using ha
  | cons key rest =>
    simp only [hsplit]
    split
    · split
      · exact mem_addToSet_of_mem ha
      · exact ha
    · exact ha

theorem mem_addCleanKeys_of_key {content : String} {cns : List String}
    {k : String} (hk : k ∈ cleanKeysOf content)
    (hv : isValidClassName k = true) : k ∈ addCleanKeys content cns := by
  unfold cleanKeysOf at hk
  rw [List.mem_filterMap] at hk
  obtain ⟨entry, hentry, hsome⟩ := hk
  unfold addCleanKeys
  refine foldl_attain (P := fun s => k ∈ s) ?_ entry ?_ _ cns hentry
  · intro a b ha
    cases hsplit : splitOnChar ':' b with
    | nil => simpa [hsplit] using ha
    | cons key rest =>
      simp only [hsplit]
      split
      · split
        · exact mem_addToSet_of_mem ha
        · exact ha
      · exact ha
  · intro a
    cases hsplit : splitOnChar ':' entry with
    | nil => rw [hsplit] at hsome; simp at hsome
    | cons key rest =>
      rw [hsplit] at hsome
      dsimp only at hsome
      simp only [hsplit]
      split at hsome
      · rename_i hke
        rcases Option.some.inj hsome with rfl
        rw [if_pos hke, if_pos hv]
        exact mem_addToSet_self _ _
      · cases hsome

/-! ## Mixin-expansion lemmas -/

theorem keyFold_all_valid {ks : List String} {cns : List String}
    (h : ∀ x ∈ cns, isValidClassName x = true) :
    ∀ x ∈ ks.foldl
        (fun cns2 key =>
          if isValidClassName key then addToSet cns2 key else cns2) cns,
      isValidClassName x = true := by
  refine foldl_preserve (P := fun s => ∀ x ∈ s, isValidClassName x = true)
    ?_ ks cns h
  intro a key ha
  split
  · exact addToSet_all ha (by assumption)
  · exact ha

theorem keyFold_mem {x : String} {ks : List String} {cns : List String}
    (h : x ∈ cns) :
    x ∈ ks.foldl
        (fun cns2 key =>
          if isValidClassName key then addToSet cns2 key else cns2) cns := by
  refine foldl_preserve (P := fun s => x ∈ s) ?_ ks cns h
  intro a key ha
  split
  · exact mem_addToSet_of_mem ha
  · exact ha

theorem processMixinCall_all_valid {nm args : String} {vars : Variables}
    {cns : List String} (h : ∀ x ∈ cns, isValidClassName x = true) :
    ∀ x ∈ Part000.processMixinCall nm args vars cns,
      isValidClassName x = true := by
  simp only [Part000.processMixinCall]
  split
  · split
    · split
      · refine foldl_preserve
          (P := fun s => ∀ x ∈ s, isValidClassName x = true) ?_ _ cns h
        intro a key ha
        refine foldl_preserve
          (P := fun s => ∀ x ∈ s, isValidClassName x = true) ?_ _ a ha
        intro a2 sk ha2
        dsimp only
        split
        · exact addToSet_all ha2 (by assumption)
        · exact ha2
      · exact h
    · exact h
  · split
    · split
      · split
        · exact keyFold_all_valid h
        · exact h
      · exact h
    · split
      · split
        · split
          · exact keyFold_all_valid h
          · exact h
        · exact h
      · exact h

theorem processMixinCall_mem {x nm args : String} {vars : Variables}
    {cns : List String} (h : x ∈ cns) :
    x ∈ Part000.processMixinCall nm args vars cns := by
  simp only [Part000.processMixinCall]
  split
  · split
    · split
      · refine foldl_preserve (P := fun s => x ∈ s) ?_ _ cns h
        intro a key ha
        refine foldl_preserve (P := fun s => x ∈ s) ?_ _ a ha
        intro a2 sk ha2
        dsimp only
        split
        · exact mem_addToSet_of_mem ha2
        · exact ha2
      · exact h
    · exact h
  · split
    · split
      · split
        · exact keyFold_mem h
        · exact h
      · exact h
    · split
      · split
        · split
          · exact keyFold_mem h
          · exact h
        · exact h
      · exact h

/-! ## Symbol-table lemmas -/

theorem lookup_isSome_iff {α : Type} {m : List (String × α)} {k : String} :
    (lookupVar m k).isSome = true ↔ ∃ p ∈ m, p.1 = k := by
  unfold lookupVar
  rw [Option.isSome_map']
  rw [List.find?_isSome]
  simp

theorem lookup_jsOSet_isSome {α : Type} {m : List (String × α)}
    {k k2 : String} {v : α} (h : (lookupVar m k).isSome = true) :
    (lookupVar (jsOSet m k2 v) k).isSome = true := by
  rw [lookup_isSome_iff] at h ⊢
  obtain ⟨p, hp, hpk⟩ := h
  unfold jsOSet
  split
  · by_cases hk2 : p.1 = k2
    · refine ⟨(k2, v), List.mem_map.mpr ⟨p, hp, by rw [if_pos hk2]⟩, ?_⟩
      rw [← hpk, hk2]
    · exact ⟨p, List.mem_map.mpr ⟨p, hp, by rw [if_neg hk2]⟩, hpk⟩
  · exact ⟨p, List.mem_append_left _ hp, hpk⟩

theorem lookup_jsOSet_self {α : Type} (m : List (String × α)) (k : String)
    (v : α) : (lookupVar (jsOSet m k v) k).isSome = true := by
  rw [lookup_isSome_iff]
  unfold jsOSet
  split
  · rename_i hany
    rw [List.any_eq_true] at hany
    obtain ⟨p, hp, hpk⟩ := hany
    rw [decide_eq_true_eq] at hpk
    exact ⟨(k, v), List.mem_map.mpr ⟨p, hp, by rw [if_pos hpk]⟩, rfl⟩
  · exact ⟨(k, v), List.mem_append_right _ (by simp), rfl⟩

/-! ## Per-file and whole-pass lemmas -/

theorem processFile_all_valid {st : Part000.ScanState} {content : String}
    (h : ∀ x ∈ st.classNames, isValidClassName x = true) :
    ∀ x ∈ (Part000.processFile st content).classNames,
      isValidClassName x = true := by
  simp only [Part000.processFile]
  refine foldl_preserve
    (P := fun s : Part000.ScanState =>
      ∀ x ∈ s.classNames, isValidClassName x = true) ?_ _ _
    (foldl_preserve
      (P := fun s : Part000.ScanState =>
        ∀ x ∈ s.classNames, isValidClassName x = true) ?_ _ _
      (foldl_preserve
        (P := fun s : Part000.ScanState =>
          ∀ x ∈ s.classNames, isValidClassName x = true) ?_ _ _ h))
  · intro a nmv ha
    dsimp only
    split
    · exact addToSet_all ha (by assumption)
    · exact ha
  · intro a p ha
    exact processMixinCall_all_valid ha
  · intro a p ha
    exact addCleanKeys_all_valid ha

theorem processFile_mem {x : String} {st : Part000.ScanState}
    {content : String} (h : x ∈ st.classNames) :
    x ∈ (Part000.processFile st content).classNames := by
  simp only [Part000.processFile]
  refine foldl_preserve (P := fun s : Part000.ScanState => x ∈ s.classNames)
    ?_ _ _
    (foldl_preserve (P := fun s : Part000.ScanState => x ∈ s.classNames)
      ?_ _ _
      (foldl_preserve (P := fun s : Part000.ScanState => x ∈ s.classNames)
        ?_ _ _ h))
  · intro a nmv ha
    dsimp only
    split
    · exact mem_addToSet_of_mem ha
    · exact ha
  · intro a p ha
    exact processMixinCall_mem ha
  · intro a p ha
    exact mem_addCleanKeys_of_mem ha

theorem processFile_key_attain {st : Part000.ScanState}
    {content n body k : String} (hm : (n, body) ∈ scanVariables content)
    (hk : k ∈ cleanKeysOf body) (hv : isValidClassName k = true) :
    k ∈ (Part000.processFile st content).classNames := by
  simp only [Part000.processFile]
  refine foldl_preserve (P := fun s : Part000.ScanState => k ∈ s.classNames)
    ?_ _ _
    (foldl_preserve (P := fun s : Part000.ScanState => k ∈ s.classNames)
      ?_ _ _
      (foldl_attain (P := fun s : Part000.ScanState => k ∈ s.classNames)
        ?_ (n, body) ?_ _ st hm))
  · intro a nmv ha
    dsimp only
    split
    · exact mem_addToSet_of_mem ha
    · exact ha
  · intro a p ha
    exact processMixinCall_mem ha
  · intro a p ha
    exact mem_addCleanKeys_of_mem ha
  · intro a
    exact mem_addCleanKeys_of_key hk hv

theorem processFile_sel_attain {st : Part000.ScanState}
    {content nm : String} (hm : nm ∈ scanClassSelectors content)
    (hv : isValidClassName nm = true) :
    nm ∈ (Part000.processFile st content).classNames := by
  simp only [Part000.processFile]
  refine foldl_attain (P := fun s : Part000.ScanState => nm ∈ s.classNames)
    ?_ nm ?_ _ _ hm
  · intro a c ha
    dsimp only
    split
    · exact mem_addToSet_of_mem ha
    · exact ha
  · intro a
    dsimp only
    rw [if_pos hv]
    exact mem_addToSet_self _ _

theorem processFile_vars_isSome {st : Part000.ScanState}
    {content k : String} (h : (lookupVar st.vars k).isSome = true) :
    (lookupVar (Part000.processFile st content).vars k).isSome = true := by
  simp only [Part000.processFile]
  refine foldl_preserve
    (P := fun s : Part000.ScanState => (lookupVar s.vars k).isSome = true)
    ?_ _ _
    (foldl_preserve
      (P := fun s : Part000.ScanState => (lookupVar s.vars k).isSome = true)
      ?_ _ _
      (foldl_preserve
        (P := fun s : Part000.ScanState =>
          (lookupVar s.vars k).isSome = true) ?_ _ _ h))
  · intro a nmv ha
    exact ha
  · intro a p ha
    exact ha
  · intro a p ha
    exact lookup_jsOSet_isSome ha

theorem processFile_vars_attain {st : Part000.ScanState}
    {content n body : String} (hm : (n, body) ∈ scanVariables content) :
    (lookupVar (Part000.processFile st content).vars n).isSome = true := by
  simp only [Part000.processFile]
  refine foldl_preserve
    (P := fun s : Part000.ScanState => (lookupVar s.vars n).isSome = true)
    ?_ _ _
    (foldl_preserve
      (P := fun s : Part000.ScanState => (lookupVar s.vars n).isSome = true)
      ?_ _ _
      (foldl_attain
        (P := fun s : Part000.ScanState =>
          (lookupVar s.vars n).isSome = true) ?_ (n, body) ?_ _ st hm))
  · intro a nmv ha
    exact ha
  · intro a p ha
    exact ha
  · intro a p ha
    exact lookup_jsOSet_isSome ha
  · intro a
    exact lookup_jsOSet_self _ _ _

theorem parseScssFiles_all_valid (files : List String) :
    ∀ x ∈ Part000.parseScssFiles files, isValidClassName x = true := by
  unfold Part000.parseScssFiles
  refine foldl_preserve
    (P := fun s : Part000.ScanState =>
      ∀ x ∈ s.classNames, isValidClassName x = true) ?_ files _ ?_
  · intro a f ha
    exact processFile_all_valid ha
  · intro x hx
    cases hx

theorem parseScssFiles_var_attain {files : List String}
    {f n body k : String} (hf : f ∈ files)
    (hm : (n, body) ∈ scanVariables f) (hk : k ∈ cleanKeysOf body)
    (hv : isValidClassName k = true) :
    k ∈ Part000.parseScssFiles files := by
  unfold Part000.parseScssFiles
  refine foldl_attain (P := fun s : Part000.ScanState => k ∈ s.classNames)
    ?_ f ?_ files _ hf
  · intro a b ha
    exact processFile_mem ha
  · intro a
    exact processFile_key_attain hm hk hv

theorem parseScssFiles_sel_attain {files : List String} {f nm : String}
    (hf : f ∈ files) (hm : nm ∈ scanClassSelectors f)
    (hv : isValidClassName nm = true) :
    nm ∈ Part000.parseScssFiles files := by
  unfold Part000.parseScssFiles
  refine foldl_attain (P := fun s : Part000.ScanState => nm ∈ s.classNames)
    ?_ f ?_ files _ hf
  · intro a b ha
    exact processFile_mem ha
  · intro a
    exact processFile_sel_attain hm hv

/-! ## Mixin-scanner character lemmas (single-line arguments) -/

theorem scanMixinArgs_dot :
    ∀ (l : List Char) {a r : List Char},
      scanMixinArgs l = some (a, r) → ∀ c ∈ a, isDotChar c = true := by
  intro l
  induction l with
  | nil => intro a r h; simp [scanMixinArgs] at h
  | cons c rest ih =>
    intro a r h
    simp only [scanMixinArgs] at h
    split at h
    · rcases Option.some.inj h with h2
      rw [Prod.mk.injEq] at h2
      rcases h2 with ⟨h2a, _⟩
      intro c2 hc2
      rw [← h2a] at hc2
      cases hc2
    · split at h
      · rename_i hdot
        cases hs : scanMixinArgs rest with
        | none => rw [hs] at h; cases h
        | some p =>
          obtain ⟨a2, r2⟩ := p
          rw [hs] at h
          rcases Option.some.inj h with h2
          rw [Prod.mk.injEq] at h2
          rcases h2 with ⟨h2a, _⟩
          intro c2 hc2
          rw [← h2a] at hc2
          rcases List.mem_cons.mp hc2 with h3 | h3
          · subst h3; exact hdot
          · exact ih hs c2 h3
      · cases h

theorem matchMixinAt_dot {l : List Char} {nm args : String} {r : List Char}
    (h : matchMixinAt l = some (nm, args, r)) :
    ∀ c ∈ args.data, isDotChar c = true := by
  simp only [matchMixinAt] at h
  split at h
  · split at h
    · cases h
    · split at h
      · cases h
      · split at h
        · rename_i r3 heq
          cases hs : scanMixinArgs r3 with
          | none => rw [hs] at h; cases h
          | some p =>
            obtain ⟨a2, r4⟩ := p
            rw [hs] at h
            rcases Option.some.inj h with h2
            rw [Prod.mk.injEq, Prod.mk.injEq] at h2
            rcases h2 with ⟨_, h2b, _⟩
            rw [← h2b]
            exact scanMixinArgs_dot r3 hs
        · cases h
  · cases h

theorem scanMixinsGo_dot :
    ∀ (fuel : Nat) (l : List Char) (nm args : String),
      (nm, args) ∈ scanMixinsGo fuel l → ∀ c ∈ args.data, isDotChar c = true := by
  intro fuel
  induction fuel with
  | zero => intro l nm args h; simp [scanMixinsGo] at h
  | succ f ih =>
    intro l nm args h
    cases l with
    | nil => simp [scanMixinsGo] at h
    | cons c rest =>
      simp only [scanMixinsGo] at h
      cases hm : matchMixinAt (c :: rest) with
      | none =>
        rw [hm] at h
        exact ih rest nm args h
      | some trip =>
        obtain ⟨n1, a1, r1⟩ := trip
        rw [hm] at h
        rcases List.mem_cons.mp h with h2 | h2
        · rw [Prod.mk.injEq] at h2
          rcases h2 with ⟨_, h2b⟩
          subst h2b
          exact matchMixinAt_dot hm
        · exact ih r1 nm args h2

theorem scanMixins_dot {content nm args : String}
    (h : (nm, args) ∈ scanMixins content) :
    ∀ c ∈ args.data, isDotChar c = true :=
  scanMixinsGo_dot _ _ nm args h

/-! ## Validity-filter component characterizations -/

theorem testStartsDollar_iff {l : List Char} :
    testStartsDollar l = true ↔ l.head? = some '$' := by
  cases l <;> simp [testStartsDollar]

theorem testStartsHash_iff {l : List Char} :
    testStartsHash l = true ↔ l.head? = some '#' := by
  cases l <;> simp [testStartsHash]

theorem testStartsHyphen_iff {l : List Char} :
    testStartsHyphen l = true ↔ l.head? = some '-' := by
  cases l <;> simp [testStartsHyphen]

theorem testStartsDigit_iff {l : List Char} :
    testStartsDigit l = true ↔ ∃ c, l.head? = some c ∧ c.isDigit = true := by
  cases l <;> simp [testStartsDigit]

theorem testDollarPercent_iff {l : List Char} :
    testDollarPercent l = true ↔ ∃ c ∈ l, c = '$' ∨ c = '%' := by
  simp [testDollarPercent]

theorem testWs_iff {l : List Char} :
    testWs l = true ↔ ∃ c ∈ l, isWsJS c = true := by
  simp [testWs]

theorem testParen_iff {l : List Char} :
    testParen l = true ↔ ∃ c ∈ l, c = '(' ∨ c = ')' := by
  simp [testParen]

theorem testEndsSemi_iff {l : List Char} :
    testEndsSemi l = true ↔ l.getLast? = some ';' := by
  unfold testEndsSemi
  cases h : l.getLast? <;> simp

theorem testAllDigits_iff {l : List Char} :
    testAllDigits l = true ↔ l ≠ [] ∧ ∀ c ∈ l, c.isDigit = true := by
  simp [testAllDigits, List.isEmpty_iff]

theorem takeWhile_all_append {p : Char → Bool} :
    ∀ (ds : List Char) (c : Char) (t : List Char),
      (∀ x ∈ ds, p x = true) → p c = false →
      (ds ++ c :: t).takeWhile p = ds ∧ (ds ++ c :: t).dropWhile p = c :: t := by
  intro ds
  induction ds with
  | nil =>
    intro c t _ hc
    simp [List.takeWhile_cons, List.dropWhile_cons, hc]
  | cons d ds ih =>
    intro c t hall hc
    have hd : p d = true := hall d (by simp)
    have h2 := ih c t (fun x hx => hall x (by simp [hx])) hc
    simp [List.takeWhile_cons, List.dropWhile_cons, hd, h2.1, h2.2]

theorem testSizeLit_iff {l : List Char} :
    testSizeLit l = true ↔
      ∃ ds, ds ≠ [] ∧ (∀ c ∈ ds, c.isDigit = true) ∧
        (l = ds ++ ['p', 'x'] ∨ l = ds ++ ['r', 'e', 'm']) := by
  constructor
  · intro h
    simp only [testSizeLit, Bool.and_eq_true, Bool.or_eq_true,
      decide_eq_true_eq, Bool.not_eq_true', List.isEmpty_eq_false] at h
    refine ⟨l.takeWhile Char.isDigit, h.1, ?_, ?_⟩
    · intro c hc
      exact List.mem_takeWhile_imp hc
    · rcases h.2 with h2 | h2
      · left
        rw [← h2, List.takeWhile_append_dropWhile]
      · right
        rw [← h2, List.takeWhile_append_dropWhile]
  · rintro ⟨ds, hne, hds, h | h⟩ <;> subst h
    · have h2 := takeWhile_all_append ds 'p' ['x'] hds (by decide)
      simp [testSizeLit, h2.1, h2.2, hne]
    · have h2 := takeWhile_all_append ds 'r' ['e', 'm'] hds (by decide)
      simp [testSizeLit, h2.1, h2.2, hne]

theorem isValid_eq_false_iff {name : String} :
    isValidClassName name = false ↔
      (testStartsDollar name.data = true ∨ testStartsHash name.data = true ∨
       testDollarPercent name.data = true ∨ testStartsDigit name.data = true ∨
       testStartsHyphen name.data = true ∨ testWs name.data = true ∨
       testParen name.data = true ∨ testEndsSemi name.data = true ∨
       testSizeLit name.data = true ∨ testAllDigits name.data = true) := by
  rw [isValidClassName]
  rw [Bool.not_eq_false']
  simp only [Bool.or_eq_true]
  tauto

theorem valid_components {name : String} (h : isValidClassName name = true) :
    testStartsDollar name.data = false ∧ testStartsHash name.data = false ∧
    testDollarPercent name.data = false ∧ testStartsDigit name.data = false ∧
    testStartsHyphen name.data = false ∧ testWs name.data = false ∧
    testParen name.data = false ∧ testEndsSemi name.data = false ∧
    testSizeLit name.data = false ∧ testAllDigits name.data = false := by
  rw [isValidClassName, Bool.not_eq_true'] at h
  simp only [Bool.or_eq_false_iff] at h
  tauto

/-! ## Claim theorems -/

set_option maxRecDepth 10000

/-- Claim C1: every string in the extraction output of
`Part000.parseScssFiles` passes the Validity Filter, regardless of which
discovery path produced it; in particular no output string begins with a
digit, contains a dollar or percent sign, or contains whitespace. -/
theorem claim_C1_output_passes_filter :
    ∀ (files : List String) (s : String), s ∈ Part000.parseScssFiles files →
      isValidClassName s = true ∧
      (∀ c, s.data.head? = some c → c.isDigit = false) ∧
      (∀ c ∈ s.data, c ≠ '$' ∧ c ≠ '%' ∧ isWsJS c = false) := by
  intro files s hs
  have hv := parseScssFiles_all_valid files s hs
  have hc := valid_components hv
  refine ⟨hv, ?_, ?_⟩
  · intro c hheadc
    by_contra hd
    rw [Bool.not_eq_false] at hd
    have h1 := testStartsDigit_iff.mpr ⟨c, hheadc, hd⟩
    rw [hc.2.2.2.1] at h1
    exact Bool.false_ne_true h1
  · intro c hmem
    refine ⟨?_, ?_, ?_⟩
    · intro heq
      have h1 := testDollarPercent_iff.mpr ⟨c, hmem, Or.inl heq⟩
      rw [hc.2.2.1] at h1
      exact Bool.false_ne_true h1
    · intro heq
      have h1 := testDollarPercent_iff.mpr ⟨c, hmem, Or.inr heq⟩
      rw [hc.2.2.1] at h1
      exact Bool.false_ne_true h1
    · by_contra hw
      rw [Bool.not_eq_false] at hw
      have h1 := testWs_iff.mpr ⟨c, hmem, hw⟩
      rw [hc.2.2.2.2.2.1] at h1
      exact Bool.false_ne_true h1

/-- Witness for claim C1 at the candidate `sm` produced by a concrete
variable-map declaration. -/
theorem claim_C1_witness :
    isValidClassName "sm" = true ∧
    (∀ c, "sm".data.head? = some c → c.isDigit = false) ∧
    (∀ c ∈ "sm".data, c ≠ '$' ∧ c ≠ '%' ∧ isWsJS c = false) :=
  claim_C1_output_passes_filter
    ["$spacing: (sm: 4px, lg: 16px) !default;"] "sm" (by decide)

/-- Claim C2: the Validity Filter rejects a candidate exactly when one of
the ten conditions listed in the spec holds (begins with a dollar sign or
a hash, contains a dollar or percent sign, begins with a digit, begins
with a hyphen, contains whitespace, contains a parenthesis, ends with a
semicolon, is entirely a `px`/`rem` size literal, or is entirely
digits). -/
theorem claim_C2_validity_filter_spec (name : String) :
    isValidClassName name = false ↔ rejectedBySpec name := by
  rw [isValid_eq_false_iff]
  unfold rejectedBySpec
  exact or_congr testStartsDollar_iff (or_congr testStartsHash_iff
    (or_congr testDollarPercent_iff (or_congr testStartsDigit_iff
      (or_congr testStartsHyphen_iff (or_congr testWs_iff
        (or_congr testParen_iff (or_congr testEndsSemi_iff
          (or_congr testSizeLit_iff testAllDigits_iff))))))))

/-- Claim C3, evaluated on the code: for the spec's cross-product corpus
(`$color` and `$scale` maps followed by
`@include ds4-scale-class("btn-", $color, $scale);`) the engine of
`part_000` outputs exactly `red` and `blue` and none of the four
`btn-…` names the claim requires.  The mixin arguments keep their `$`
sigil (only quotes are stripped on line 168), while the symbol table is
keyed by the sigil-free captured name, so the lookup
`variables["$color"]` can never succeed and the cross product is never
synthesized. -/
theorem claim_C3_cross_product_not_synthesized :
    Part000.parseScssFiles [crossInput] = ["red", "blue"] ∧
    "btn-red-1" ∉ Part000.parseScssFiles [crossInput] ∧
    "btn-red-2" ∉ Part000.parseScssFiles [crossInput] ∧
    "btn-blue-1" ∉ Part000.parseScssFiles [crossInput] ∧
    "btn-blue-2" ∉ Part000.parseScssFiles [crossInput] := by
  decide

/-- Counterexample to claim C4: unit `fileB` declares no variable map,
yet its `ds4-scale-class` invocation resolves the maps `m` and `s`
declared in the earlier unit `fileA` and synthesizes `btn-abc-xy` —
processing `fileB` alone yields nothing. -/
theorem claim_C4_counterexample :
    scanVariables fileB = [] ∧
    "btn-abc-xy" ∈ Part000.parseScssFiles [fileA, fileB] ∧
    Part000.parseScssFiles [fileB] = [] := by
  decide

/-- Amended claim C4: the symbol table accumulates across source units
within one pass (`variables` is initialized once per `parseScssFiles`
call, before the file loop) — every map declared in an earlier unit is
still present in the table while a later unit is processed, so a mixin
invocation there can resolve it and synthesize candidates. -/
theorem claim_C4_table_carries_over :
    (∀ (st : Part000.ScanState) (A B n body : String),
        (n, body) ∈ scanVariables A →
        (lookupVar (Part000.processFile (Part000.processFile st A) B).vars
          n).isSome = true) ∧
    "btn-abc-xy" ∈ Part000.parseScssFiles [fileA, fileB] := by
  constructor
  · intro st A B n body hm
    exact processFile_vars_isSome (processFile_vars_attain hm)
  · decide

/-- Witness for the amended claim C4: the map `m` declared in `fileA` is
still in the symbol table after the pass has moved on to `fileB`. -/
theorem claim_C4_witness :
    (lookupVar (Part000.processFile (Part000.processFile ⟨[], []⟩ fileA)
      fileB).vars "m").isSome = true :=
  claim_C4_table_carries_over.1 ⟨[], []⟩ fileA fileB "m" "abc: red"
    (by decide)

/-- Claim C5: every key extracted from a parsed variable-map declaration
that passes the Validity Filter appears in the extraction output as a
direct candidate; for `$spacing: (sm: 4px, lg: 16px) !default;` the
output contains `sm` and `lg` but none of `spacing`, `4px`, `16px`. -/
theorem claim_C5_variable_map_direct_keys :
    (∀ (files : List String) (f n body k : String),
        f ∈ files → (n, body) ∈ scanVariables f → k ∈ cleanKeysOf body →
        isValidClassName k = true → k ∈ Part000.parseScssFiles files) ∧
    ("sm" ∈ Part000.parseScssFiles ["$spacing: (sm: 4px, lg: 16px) !default;"] ∧
     "lg" ∈ Part000.parseScssFiles ["$spacing: (sm: 4px, lg: 16px) !default;"] ∧
     "spacing" ∉ Part000.parseScssFiles ["$spacing: (sm: 4px, lg: 16px) !default;"] ∧
     "4px" ∉ Part000.parseScssFiles ["$spacing: (sm: 4px, lg: 16px) !default;"] ∧
     "16px" ∉ Part000.parseScssFiles ["$spacing: (sm: 4px, lg: 16px) !default;"]) := by
  constructor
  · intro files f n body k hf hm hk hv
    exact parseScssFiles_var_attain hf hm hk hv
  · decide

/-- Witness for claim C5: the general emission property applied to the
key `sm` of the concrete `$spacing` declaration. -/
theorem claim_C5_witness :
    "sm" ∈ Part000.parseScssFiles ["$spacing: (sm: 4px, lg: 16px) !default;"] :=
  claim_C5_variable_map_direct_keys.1 _
    "$spacing: (sm: 4px, lg: 16px) !default;" "spacing" "sm: 4px, lg: 16px"
    "sm" (by decide) (by decide) (by decide) (by decide)

/-- Claim C6: every identifier the Literal-Selector Scanner extracts
(a `.` followed by an identifier and, after optional whitespace, a `{`)
that passes the Validity Filter appears in the output; in particular
`.button-primary { color: red; }` yields `button-primary`. -/
theorem claim_C6_literal_selector_scanner :
    (∀ (files : List String) (f nm : String),
        f ∈ files → nm ∈ scanClassSelectors f → isValidClassName nm = true →
        nm ∈ Part000.parseScssFiles files) ∧
    "button-primary" ∈ Part000.parseScssFiles [".button-primary { color: red; }"] := by
  constructor
  · intro files f nm hf hm hv
    exact parseScssFiles_sel_attain hf hm hv
  · decide

/-- Witness for claim C6: the general admission property applied to the
selector identifier of the concrete rule. -/
theorem claim_C6_witness :
    "button-primary" ∈ Part000.parseScssFiles [".btn { }", ".button-primary { color: red; }"] :=
  claim_C6_literal_selector_scanner.1 _ ".button-primary { color: red; }"
    "button-primary" (by decide) (by decide) (by decide)

/-- Claim C7: a recognized mixin invocation whose map-name argument does
not resolve in the symbol table contributes zero candidates (the set is
returned unchanged), and an invocation of a name outside the convention
table contributes zero candidates; `processMixinCall` is a total
function, so no error is raised and scanning continues. -/
theorem claim_C7_unresolved_and_unknown_mixins :
    ∀ (nm args : String) (vars : Variables) (cns : List String),
      (nm ≠ "ds4-scale-class" → nm ≠ "ds4-scale-font-class" →
        nm ≠ "style-class" → nm ≠ "ds4-scale-border-radius-class" →
        nm ≠ "ds4-border-radius-class" →
        Part000.processMixinCall nm args vars cns = cns) ∧
      (nm = "ds4-scale-class" →
        lookupVar vars ((Part000.parseMixinArgs args).getD 1 "") = none →
        Part000.processMixinCall nm args vars cns = cns) ∧
      ((nm = "ds4-scale-font-class" ∨ nm = "style-class") →
        lookupVar vars ((Part000.parseMixinArgs args).getD 1 "") = none →
        Part000.processMixinCall nm args vars cns = cns) ∧
      ((nm = "ds4-scale-border-radius-class" ∨ nm = "ds4-border-radius-class") →
        lookupVar vars ((Part000.parseMixinArgs args).getD 0 "") = none →
        Part000.processMixinCall nm args vars cns = cns) := by
  intro nm args vars cns
  refine ⟨?_, ?_, ?_, ?_⟩
  · intro h1 h2 h3 h4 h5
    simp only [Part000.processMixinCall]
    rw [if_neg h1, if_neg (by simp [h2, h3]), if_neg (by simp [h4, h5])]
  · intro h1 h2
    subst h1
    simp only [Part000.processMixinCall, reduceIte]
    split
    · rw [h2]
    · rfl
  · intro h1 h2
    rcases h1 with h1 | h1 <;> subst h1 <;>
      simp only [Part000.processMixinCall, reduceIte] <;>
      rw [if_neg (by decide)] <;>
      rw [if_pos (by decide)] <;>
      split
    · rw [h2]
    · rfl
    · rw [h2]
    · rfl
  · intro h1 h2
    rcases h1 with h1 | h1 <;> subst h1 <;>
      simp only [Part000.processMixinCall, reduceIte] <;>
      rw [if_neg (by decide)] <;>
      rw [if_neg (by decide)] <;>
      rw [if_pos (by decide)] <;>
      split
    · rw [h2]
    · rfl
    · rw [h2]
    · rfl

/-- Witness for claim C7: a mixin outside the convention table and a
`ds4-scale-class` invocation whose map name is absent from the table
both leave the set unchanged. -/
theorem claim_C7_witness :
    Part000.processMixinCall "unknown-mixin" "a, b" [] ["x"] = ["x"] ∧
    Part000.processMixinCall "ds4-scale-class" "btn-, missing, scales" []
      ["x"] = ["x"] :=
  ⟨(claim_C7_unresolved_and_unknown_mixins "unknown-mixin" "a, b" [] ["x"]).1
      (by decide) (by decide) (by decide) (by decide) (by decide),
   (claim_C7_unresolved_and_unknown_mixins "ds4-scale-class"
      "btn-, missing, scales" [] ["x"]).2.1 rfl (by decide)⟩

/-- Claim C8: the two implementations are not equivalent — on the
cross-product corpus (which contains a `ds4-scale-class` invocation) the
`server.ts` engine and the `part_000` engine return different result
sets (`server.ts` admits the literal prefix `btn-`, `part_000` does
not). -/
theorem claim_C8_implementations_differ :
    (scanMixins crossInput).any (fun p => p.1 = "ds4-scale-class") = true ∧
    Server.parseScssFiles [crossInput] = ["red", "blue", "btn-"] ∧
    Part000.parseScssFiles [crossInput] = ["red", "blue"] ∧
    Server.parseScssFiles [crossInput] ≠ Part000.parseScssFiles [crossInput] := by
  decide

/-- Claim C9: the Validity Filter accepts the empty string, and the
empty string is reachable in the output via a variable map whose key is
a quoted empty string. -/
theorem claim_C9_empty_string_reachable :
    isValidClassName "" = true ∧
    "" ∈ Part000.parseScssFiles ["$m: (\"\": 4px) !default;"] := by
  decide

/-- Claim C10: a mixin invocation is only recognized when its argument
list lies on one line — every scanned invocation's argument text is free
of newlines (the argument capture admits no line terminator), a
multi-line `@include` yields no match, while a multi-line variable-map
body is still parsed and its keys emitted. -/
theorem claim_C10_mixin_args_single_line :
    (∀ (content nm args : String),
        (nm, args) ∈ scanMixins content → '\n' ∉ args.data) ∧
    scanMixins "@include style-class(a,\n b);" = [] ∧
    Part000.parseScssFiles ["$m: (a: 1,\n b: 2) !default;"] = ["a", "b"] := by
  refine ⟨?_, by decide, by decide⟩
  intro content nm args hm hmem
  have hd := scanMixins_dot hm '\n' hmem
  exact absurd hd (by decide)

/-- Witness for claim C10: the no-newline property applied to a concrete
recognized invocation. -/
theorem claim_C10_witness : '\n' ∉ ("a" : String).data :=
  claim_C10_mixin_args_single_line.1 "@include m(a);" "m" "a" (by decide)

end DSA
